import Mathlib

/-
A shallow embedding of src/Geometry3D/geometry/polyhedron.py (class
ConvexPolyhedron and the Parallelepiped factory).

Coordinates are exact rationals.  The process-wide tolerance returned by
get_eps() is passed to every operation as an explicit parameter eps.  The
geometric primitive types (Point, Vector, Plane, ConvexPolygen, Pyramid)
live outside the given source; each of their definitions below carries a
doc comment starting with "Modelled from the spec:" naming what is missing.
Python exceptions are modelled by the GeoError type, with one constructor
per raise site of polyhedron.py; fallible operations return Except.
-/

namespace Geometry3D

/-- Modelled from the spec: Point, three coordinates with value equality
and a move-by-vector operation returning a new point. -/
@[ext]
structure Point where
  x : ℚ
  y : ℚ
  z : ℚ
deriving DecidableEq

/-- Modelled from the spec: Vector, with dot and cross products,
length, parallelism test and unary negation. -/
@[ext]
structure Vector where
  x : ℚ
  y : ℚ
  z : ℚ
deriving DecidableEq

instance : Neg Vector := ⟨fun v => ⟨-v.x, -v.y, -v.z⟩⟩

/-- Modelled from the spec: construction of a Vector from two points,
as in the source expression Vector(a, b). -/
def Vector.fromPoints (a b : Point) : Vector :=
  ⟨b.x - a.x, b.y - a.y, b.z - a.z⟩

/-- Modelled from the spec: dot product, written * in the source. -/
def Vector.dot (v w : Vector) : ℚ :=
  v.x * w.x + v.y * w.y + v.z * w.z

/-- Modelled from the spec: cross product. -/
def Vector.cross (v w : Vector) : Vector :=
  ⟨v.y * w.z - v.z * w.y, v.z * w.x - v.x * w.z, v.x * w.y - v.y * w.x⟩

/-- Modelled from the spec: the factory guard v1.length() == 0.  Over exact
arithmetic the Euclidean length vanishes exactly when the sum of squared
components does, so no square root is needed. -/
def Vector.lengthIsZero (v : Vector) : Bool :=
  decide (v.x * v.x + v.y * v.y + v.z * v.z = 0)

/-- Modelled from the spec: the parallelism test of Vector, taken as the
vanishing of the cross product; under this standard definition the zero
vector is parallel to every vector. -/
def Vector.parallelB (v w : Vector) : Bool :=
  decide (Vector.cross v w = ⟨0, 0, 0⟩)

/-- Modelled from the spec: Point.move, returning the displaced point. -/
def Point.move (p : Point) (v : Vector) : Point :=
  ⟨p.x + v.x, p.y + v.y, p.z + v.z⟩

/-- Modelled from the spec: Plane, a point on the plane together with a
normal vector.  The source reads only plane.p and plane.n. -/
structure Plane where
  p : Point
  n : Vector
deriving DecidableEq

/-- Modelled from the spec: ConvexPolygen, an ordered convex planar face
with its vertex list, derived plane and derived centroid.  The plane and
centroid are derived data of the external type; here they are carried as
fields, and the well-formedness fact that the centroid lies on the plane
is stated where a theorem needs it. -/
structure ConvexPolygen where
  points : List Point
  plane : Plane
  center_point : Point
deriving DecidableEq

/-- Lexicographic comparison of points, used only to pick a canonical
representative for an unordered pair of segment endpoints. -/
def ptLe (a b : Point) : Bool :=
  decide (a.x < b.x ∨ (a.x = b.x ∧ (a.y < b.y ∨ (a.y = b.y ∧ a.z ≤ b.z))))

/-- Modelled from the spec: Segment value equality is insensitive to
endpoint order (adjacent faces traverse a shared edge in opposite
directions, and the parallelepiped scenario of the spec counts 12 unique
edges for a cuboid).  A segment is represented by its endpoint pair in
canonical order. -/
def normSeg (s : Point × Point) : Point × Point :=
  if ptLe s.1 s.2 then s else (s.2, s.1)

/-- Consecutive vertex pairs with wraparound, from points[i] to
points[(i+1) % n]. -/
def cycPairs : List Point → List (Point × Point)
  | [] => []
  | x :: xs => (x :: xs).zip (xs ++ [x])

/-- Modelled from the spec: the edge segments of a face, one per pair of
cyclically consecutive vertices, each in canonical endpoint order. -/
def ConvexPolygen.segments (f : ConvexPolygen) : List (Point × Point) :=
  (cycPairs f.points).map normSeg

/-- Modelled from the spec: unary negation of a face is the same face with
flipped winding and normal.  Only the vertex set and the undirected edge
set of a face are observed by the polyhedron, and winding reversal
preserves both, so the vertex list is kept and the normal is negated. -/
def negPolygen (f : ConvexPolygen) : ConvexPolygen :=
  { f with plane := ⟨f.plane.p, -f.plane.n⟩ }

/-- Modelled from the spec: face translation by a vector; the vertex list,
plane point and centroid move, the normal is unchanged. -/
def movePolygen (v : Vector) (f : ConvexPolygen) : ConvexPolygen :=
  { points := f.points.map (fun p => p.move v),
    plane := ⟨f.plane.p.move v, f.plane.n⟩,
    center_point := f.center_point.move v }

/-- Translation of an endpoint pair. -/
def pairMove (v : Vector) (s : Point × Point) : Point × Point :=
  (s.1.move v, s.2.move v)

/-- Modelled from the spec: Pyramid, built from a base face and an apex
point.  The direct_call flag of the source only suppresses re-validation
inside the external Pyramid type and has no observable effect here. -/
structure Pyramid where
  base : ConvexPolygen
  apex : Point
deriving DecidableEq

/-- The exceptions raised by polyhedron.py, one constructor per raise
site.  zeroDivisionError is the ZeroDivisionError raised by
_get_center_point on an empty point set; checkNormalFails and
eulerCheckFails are the two ValueErrors of construction and move, the
latter carrying the labelled counts that the source logs as failure
detail; zeroLengthVectors and parallelVectors are the two ValueErrors of
the Parallelepiped factory; badMoveArgument and unsupportedContains are
the NotImplementedErrors of move and of the containment query;
tupleAssignment is the TypeError a flip inside move would raise, since
move has rebound self.convex_polygens to a tuple before its loop. -/
inductive GeoError where
  | zeroDivisionError
  | checkNormalFails
  | eulerCheckFails (detail : List (String × Nat))
  | zeroLengthVectors
  | parallelVectors
  | badMoveArgument
  | unsupportedContains
  | tupleAssignment
deriving DecidableEq

/-- The state of a ConvexPolyhedron object: the face list
convex_polygens, the derived point_set and segment_set, the pyramid
decomposition (recorded as the list of pyramids built, one per face) and
the centroid center_point. -/
structure ConvexPolyhedron where
  convex_polygens : List ConvexPolygen
  point_set : Finset Point
  segment_set : Finset (Point × Point)
  pyramid_set : List Pyramid
  center_point : Point
deriving DecidableEq

/-- The vertex set derived from a face list: the union of the vertex
lists, deduplicated by value. -/
def pointsOf (faces : List ConvexPolygen) : Finset Point :=
  (faces.flatMap (fun f => f.points)).toFinset

/-- The edge set derived from a face list: the union of the edge-segment
lists, deduplicated by value. -/
def segsOf (faces : List ConvexPolygen) : Finset (Point × Point) :=
  (faces.flatMap (fun f => f.segments)).toFinset

/-- _get_center_point: the coordinate-wise mean over the point set. -/
def centerOf (s : Finset Point) : Point :=
  ⟨(s.sum fun p => p.x) / s.card, (s.sum fun p => p.y) / s.card,
   (s.sum fun p => p.z) / s.card⟩

/-- The orientation test of the correction loop and of _check_normal:
Vector(center_point, face.plane.p) * face.plane.n < -get_eps(). -/
def flipCond (eps : ℚ) (c : Point) (f : ConvexPolygen) : Bool :=
  decide ((Vector.fromPoints c f.plane.p).dot f.plane.n < -eps)

/-- _check_normal: true when no face fails the orientation test. -/
def checkNormal (eps : ℚ) (c : Point) (faces : List ConvexPolygen) : Bool :=
  faces.all fun f => !(flipCond eps c f)

/-- The normal-correction step of the constructor loop: each face whose
orientation test fails is replaced by its negation.  In the source the
loop assigns self.convex_polygens[i] after reading it, so iteration i
sees the original face at index i; the map is therefore equivalent. -/
def correctFaces (eps : ℚ) (c : Point) (faces : List ConvexPolygen) : List ConvexPolygen :=
  faces.map fun f => if flipCond eps c f then negPolygen f else f

/-- _euler_check: |vertices| - |edges| + |faces| == 2. -/
def eulerHolds (pts : Finset Point) (segs : Finset (Point × Point))
    (faces : List ConvexPolygen) : Bool :=
  decide ((pts.card : ℤ) - (segs.card : ℤ) + (faces.length : ℤ) = 2)

/-- The labelled counts the constructor logs on Euler failure:
V:{points} E:{segments} F:{faces}. -/
def eulerDetailInit (pts : Finset Point) (segs : Finset (Point × Point))
    (faces : List ConvexPolygen) : List (String × Nat) :=
  [("V", pts.card), ("E", segs.card), ("F", faces.length)]

/-- The labelled counts move logs on Euler failure.  The source format
string there is V:{} F:{} E:{} applied to (points, segments, faces), so
the segment count is labelled F and the face count is labelled E. -/
def eulerDetailMove (pts : Finset Point) (segs : Finset (Point × Point))
    (faces : List ConvexPolygen) : List (String × Nat) :=
  [("V", pts.card), ("F", segs.card), ("E", faces.length)]

/-- ConvexPolyhedron.__init__: derive point and segment sets, compute the
centroid (ZeroDivisionError on an empty point set), correct face normals,
build one pyramid per face from the face read before any flip, then run
_check_normal and _euler_check, raising on failure. -/
def mkConvexPolyhedron (eps : ℚ) (faces : List ConvexPolygen) :
    Except GeoError ConvexPolyhedron :=
  let pts := pointsOf faces
  let segs := segsOf faces
  if pts.card = 0 then .error .zeroDivisionError
  else
    let c := centerOf pts
    let corrected := correctFaces eps c faces
    let pyrs := faces.map fun f => Pyramid.mk f c
    if !(checkNormal eps c corrected) then .error .checkNormalFails
    else if !(eulerHolds pts segs corrected) then
      .error (.eulerCheckFails (eulerDetailInit pts segs corrected))
    else .ok ⟨corrected, pts, segs, pyrs, c⟩

/-- The Python values that the source may receive as the argument of
__contains__, __eq__ or move. -/
inductive PyObj where
  | vec (v : Vector)
  | point (p : Point)
  | segment (s e : Point)
  | polygen (f : ConvexPolygen)
  | polyhedron (q : ConvexPolyhedron)
  | noneObj
deriving DecidableEq

/-- The Point branch of __contains__: contained unless some face has
Vector(face.center_point, pt) * face.plane.n > get_eps(). -/
def containsPoint (eps : ℚ) (self : ConvexPolyhedron) (pt : Point) : Bool :=
  self.convex_polygens.all fun f =>
    !(decide ((Vector.fromPoints f.center_point pt).dot f.plane.n > eps))

/-- __contains__: dispatch on the argument type; Point by half-space
tests, Segment by its endpoints, ConvexPolygen by its vertices, anything
else raises NotImplementedError. -/
def polyhedronContains (eps : ℚ) (self : ConvexPolyhedron) : PyObj → Except GeoError Bool
  | .point pt => .ok (containsPoint eps self pt)
  | .segment s e => .ok (containsPoint eps self s && containsPoint eps self e)
  | .polygen f => .ok (f.points.all fun pt => containsPoint eps self pt)
  | _ => .error .unsupportedContains

/-- _get_polygen_hash_sum, with the external per-face hash abstract. -/
def polygenHashSum (hashPolygen : ConvexPolygen → ℚ) (self : ConvexPolyhedron) : ℚ :=
  (self.convex_polygens.map hashPolygen).sum

/-- _get_point_hash_sum, with the external per-point hash abstract. -/
def pointHashSum (hashPoint : Point → ℚ) (self : ConvexPolyhedron) : ℚ :=
  self.point_set.sum hashPoint

/-- __hash__: combine the two hash sums, each rounded to SIG_FIGURES
significant figures.  The external tuple hash is abstracted as combine
and the rounding as roundSig. -/
def polyhedronHash (combine : ℚ → ℚ → Int) (roundSig : ℚ → ℚ)
    (hashPolygen : ConvexPolygen → ℚ) (hashPoint : Point → ℚ)
    (self : ConvexPolyhedron) : Int :=
  combine (roundSig (polygenHashSum hashPolygen self))
    (roundSig (pointHashSum hashPoint self))

/-- __eq__: hash equality against another ConvexPolyhedron, False for an
argument of any other type. -/
def polyhedronEq (h : ConvexPolyhedron → Int) (self : ConvexPolyhedron) : PyObj → Bool
  | .polyhedron q => h self == h q
  | _ => false

/-- The correction loop of move.  Line 161 of the source has rebound
self.convex_polygens to a tuple, so the item assignment performed when a
face fails the orientation test raises TypeError; the returned flag
records that event, and the accumulator holds the pyramids built so
far. -/
def moveLoop (eps : ℚ) (c : Point) : List ConvexPolygen → List Pyramid →
    List Pyramid × Bool
  | [], acc => (acc, false)
  | f :: rest, acc =>
    if flipCond eps c f then (acc, true)
    else moveLoop eps c rest (acc ++ [Pyramid.mk f c])

/-- The state a successful move leaves behind, which is also the state
from which the returned fresh polyhedron is rebuilt: every face
translated, all derived data recomputed. -/
def translatedState (v : Vector) (p : ConvexPolyhedron) : ConvexPolyhedron :=
  { convex_polygens := p.convex_polygens.map (movePolygen v),
    point_set := pointsOf (p.convex_polygens.map (movePolygen v)),
    segment_set := segsOf (p.convex_polygens.map (movePolygen v)),
    pyramid_set := (p.convex_polygens.map (movePolygen v)).map fun f =>
      Pyramid.mk f (centerOf (pointsOf (p.convex_polygens.map (movePolygen v)))),
    center_point := centerOf (pointsOf (p.convex_polygens.map (movePolygen v))) }

/-- ConvexPolyhedron.move: for a Vector argument the source mutates self
in place (faces, point set, segment set, centroid, pyramids), re-runs
both checks, and finally returns a freshly constructed polyhedron from
the mutated faces; any other argument raises NotImplementedError before
any mutation.  The result pairs the state of self after the call with the
returned value or exception. -/
def movePoly (eps : ℚ) (self : ConvexPolyhedron) (arg : PyObj) :
    ConvexPolyhedron × Except GeoError ConvexPolyhedron :=
  match arg with
  | .vec v =>
    let moved := self.convex_polygens.map (movePolygen v)
    let pts := pointsOf moved
    let segs := segsOf moved
    if pts.card = 0 then
      (⟨moved, pts, segs, [], self.center_point⟩, .error .zeroDivisionError)
    else
      let c := centerOf pts
      match moveLoop eps c moved [] with
      | (acc, true) =>
        (⟨moved, pts, segs, acc, c⟩, .error .tupleAssignment)
      | (pyrs, false) =>
        let st : ConvexPolyhedron := ⟨moved, pts, segs, pyrs, c⟩
        if !(checkNormal eps c moved) then (st, .error .checkNormalFails)
        else if !(eulerHolds pts segs moved) then
          (st, .error (.eulerCheckFails (eulerDetailMove pts segs moved)))
        else (st, mkConvexPolyhedron eps moved)
  | _ => (self, .error .badMoveArgument)

/-- Parallelogram(base, u, w): the face with vertices base, base+u,
base+u+w, base+w; modelled from the spec with the derived normal taken as
the cross product of the spanning vectors and the derived centroid as the
vertex average base + (u+w)/2. -/
def Parallelogram (base : Point) (u w : Vector) : ConvexPolygen :=
  { points := [base, base.move u, (base.move u).move w, base.move w],
    plane := ⟨base, Vector.cross u w⟩,
    center_point := ⟨base.x + (u.x + w.x) / 2, base.y + (u.y + w.y) / 2,
      base.z + (u.z + w.z) / 2⟩ }

/-- ConvexPolyhedron.Parallelepiped: guard the edge vectors, then build
six parallelogram faces and delegate to the constructor.  In the source
the second and third length comparisons read v2.length == 0 and
v3.length == 0, comparing the unbound method object to 0, which is
constantly false in Python; only the first vector has its length actually
tested, and that is reproduced here. -/
def Parallelepiped (eps : ℚ) (base_point : Point) (v1 v2 v3 : Vector) :
    Except GeoError ConvexPolyhedron :=
  if v1.lengthIsZero then .error .zeroLengthVectors
  else if v1.parallelB v2 || v1.parallelB v3 || v2.parallelB v3 then
    .error .parallelVectors
  else
    let p_diag := ((base_point.move v1).move v2).move v3
    mkConvexPolyhedron eps
      [Parallelogram base_point v1 v2, Parallelogram base_point v2 v3,
       Parallelogram base_point v1 v3, Parallelogram p_diag (-v1) (-v2),
       Parallelogram p_diag (-v2) (-v3), Parallelogram p_diag (-v1) (-v3)]

/-- The well-formedness fact about the external ConvexPolygen type used
by the containment theorems: the derived centroid of a face lies on the
derived plane of that face. -/
def faceWf (f : ConvexPolygen) : Prop :=
  (Vector.fromPoints f.plane.p f.center_point).dot f.plane.n = 0

instance : DecidablePred faceWf := fun f => by
  unfold faceWf; infer_instance

/-- Extract the polyhedron from a successful construction, with a fallback
for the error case. -/
def okOr (e : Except GeoError ConvexPolyhedron) (d : ConvexPolyhedron) : ConvexPolyhedron :=
  match e with
  | .ok p => p
  | .error _ => d

/-- Whether a construction succeeded. -/
def isOkB (e : Except GeoError ConvexPolyhedron) : Bool :=
  match e with
  | .ok _ => true
  | .error _ => false

/-- A concrete tolerance used by the witness instances. -/
def epsW : ℚ := 1 / 1000000

/-- Face x = 1 of the axis-aligned cube with vertices at coordinates ±1,
with outward normal and with the face centroid on the face plane. -/
def faceA : ConvexPolygen :=
  ⟨[⟨1, -1, -1⟩, ⟨1, 1, -1⟩, ⟨1, 1, 1⟩, ⟨1, -1, 1⟩], ⟨⟨1, -1, -1⟩, ⟨1, 0, 0⟩⟩, ⟨1, 0, 0⟩⟩

/-- Face x = -1 of the cube. -/
def faceB : ConvexPolygen :=
  ⟨[⟨-1, -1, -1⟩, ⟨-1, 1, -1⟩, ⟨-1, 1, 1⟩, ⟨-1, -1, 1⟩], ⟨⟨-1, -1, -1⟩, ⟨-1, 0, 0⟩⟩, ⟨-1, 0, 0⟩⟩

/-- Face y = 1 of the cube. -/
def faceC : ConvexPolygen :=
  ⟨[⟨-1, 1, -1⟩, ⟨1, 1, -1⟩, ⟨1, 1, 1⟩, ⟨-1, 1, 1⟩], ⟨⟨-1, 1, -1⟩, ⟨0, 1, 0⟩⟩, ⟨0, 1, 0⟩⟩

/-- Face y = -1 of the cube. -/
def faceD : ConvexPolygen :=
  ⟨[⟨-1, -1, -1⟩, ⟨1, -1, -1⟩, ⟨1, -1, 1⟩, ⟨-1, -1, 1⟩], ⟨⟨-1, -1, -1⟩, ⟨0, -1, 0⟩⟩, ⟨0, -1, 0⟩⟩

/-- Face z = 1 of the cube. -/
def faceE : ConvexPolygen :=
  ⟨[⟨-1, -1, 1⟩, ⟨1, -1, 1⟩, ⟨1, 1, 1⟩, ⟨-1, 1, 1⟩], ⟨⟨-1, -1, 1⟩, ⟨0, 0, 1⟩⟩, ⟨0, 0, 1⟩⟩

/-- Face z = -1 of the cube. -/
def faceF : ConvexPolygen :=
  ⟨[⟨-1, -1, -1⟩, ⟨1, -1, -1⟩, ⟨1, 1, -1⟩, ⟨-1, 1, -1⟩], ⟨⟨-1, -1, -1⟩, ⟨0, 0, -1⟩⟩, ⟨0, 0, -1⟩⟩

/-- The six faces of the cube, all with outward normals. -/
def cubeFaces : List ConvexPolygen := [faceA, faceB, faceC, faceD, faceE, faceF]

/-- Face x = 1 of the cube with its normal deliberately pointing inward,
so that the normal-correction step of the constructor flips it. -/
def faceAIn : ConvexPolygen :=
  ⟨[⟨1, -1, -1⟩, ⟨1, 1, -1⟩, ⟨1, 1, 1⟩, ⟨1, -1, 1⟩], ⟨⟨1, -1, -1⟩, ⟨-1, 0, 0⟩⟩, ⟨1, 0, 0⟩⟩

/-- The cube faces with the first normal pointing inward. -/
def badCubeFaces : List ConvexPolygen := [faceAIn, faceB, faceC, faceD, faceE, faceF]

/-- A fallback polyhedron value. -/
def dfltPoly : ConvexPolyhedron := ⟨[], ∅, ∅, [], ⟨0, 0, 0⟩⟩

/-- A fallback pyramid value. -/
def dfltPyr : Pyramid := ⟨⟨[], ⟨⟨0, 0, 0⟩, ⟨0, 0, 0⟩⟩, ⟨0, 0, 0⟩⟩, ⟨0, 0, 0⟩⟩

/-- A fallback face value. -/
def dfltFace : ConvexPolygen := ⟨[], ⟨⟨0, 0, 0⟩, ⟨0, 0, 0⟩⟩, ⟨0, 0, 0⟩⟩

/-- The cube polyhedron as constructed by the embedded constructor. -/
def cubeP : ConvexPolyhedron := okOr (mkConvexPolyhedron epsW cubeFaces) dfltPoly

theorem Vector.neg_def (w : Vector) : -w = ⟨-w.x, -w.y, -w.z⟩ := rfl

theorem dot_neg_right (v w : Vector) : v.dot (-w) = -(v.dot w) := by
  simp only [Vector.neg_def, Vector.dot]; ring

theorem dot_fromPoints_chain (a b c : Point) (n : Vector) :
    (Vector.fromPoints a c).dot n =
      (Vector.fromPoints a b).dot n + (Vector.fromPoints b c).dot n := by
  simp only [Vector.fromPoints, Vector.dot]; ring

theorem dot_fromPoints_rev (a b : Point) (n : Vector) :
    (Vector.fromPoints a b).dot n = -((Vector.fromPoints b a).dot n) := by
  simp only [Vector.fromPoints, Vector.dot]; ring

theorem negPolygen_points (f : ConvexPolygen) : (negPolygen f).points = f.points := rfl

theorem negPolygen_segments (f : ConvexPolygen) :
    (negPolygen f).segments = f.segments := rfl

theorem flipCond_negPolygen {eps : ℚ} {c : Point} {f : ConvexPolygen}
    (heps : 0 ≤ eps) (h : flipCond eps c f = true) :
    flipCond eps c (negPolygen f) = false := by
  simp only [flipCond, negPolygen, decide_eq_true_eq, decide_eq_false_iff_not, not_lt,
    dot_neg_right] at h ⊢
  linarith

theorem checkNormal_correctFaces (eps : ℚ) (c : Point) (faces : List ConvexPolygen)
    (heps : 0 ≤ eps) :
    checkNormal eps c (correctFaces eps c faces) = true := by
  simp only [checkNormal, correctFaces, List.all_eq_true, List.mem_map]
  rintro g ⟨f, hf, rfl⟩
  by_cases hflip : flipCond eps c f = true
  · simp only [hflip, if_true, flipCond_negPolygen heps hflip, Bool.not_false]
  · simp only [Bool.not_eq_true] at hflip
    simp [hflip]

theorem correctFaces_flatMap_points (eps : ℚ) (c : Point) (faces : List ConvexPolygen) :
    (correctFaces eps c faces).flatMap (fun f => f.points) =
      faces.flatMap (fun f => f.points) := by
  induction faces with
  | nil => rfl
  | cons f fs ih =>
    simp only [correctFaces, List.map_cons, List.flatMap_cons] at ih ⊢
    rw [ih]
    by_cases hflip : flipCond eps c f = true
    · simp [hflip, negPolygen_points]
    · simp only [Bool.not_eq_true] at hflip
      simp [hflip]

theorem correctFaces_flatMap_segments (eps : ℚ) (c : Point) (faces : List ConvexPolygen) :
    (correctFaces eps c faces).flatMap (fun f => f.segments) =
      faces.flatMap (fun f => f.segments) := by
  induction faces with
  | nil => rfl
  | cons f fs ih =>
    simp only [correctFaces, List.map_cons, List.flatMap_cons] at ih ⊢
    rw [ih]
    by_cases hflip : flipCond eps c f = true
    · simp [hflip, negPolygen_segments]
    · simp only [Bool.not_eq_true] at hflip
      simp [hflip]

theorem pointsOf_correctFaces (eps : ℚ) (c : Point) (faces : List ConvexPolygen) :
    pointsOf (correctFaces eps c faces) = pointsOf faces := by
  unfold pointsOf
  rw [correctFaces_flatMap_points]

theorem segsOf_correctFaces (eps : ℚ) (c : Point) (faces : List ConvexPolygen) :
    segsOf (correctFaces eps c faces) = segsOf faces := by
  unfold segsOf
  rw [correctFaces_flatMap_segments]

theorem correctFaces_length (eps : ℚ) (c : Point) (faces : List ConvexPolygen) :
    (correctFaces eps c faces).length = faces.length := by
  simp [correctFaces]

theorem correctFaces_of_checkNormal {eps : ℚ} {c : Point} {faces : List ConvexPolygen}
    (h : checkNormal eps c faces = true) :
    correctFaces eps c faces = faces := by
  simp only [checkNormal, List.all_eq_true, Bool.not_eq_eq_eq_not, Bool.not_true] at h
  unfold correctFaces
  induction faces with
  | nil => rfl
  | cons f fs ih =>
    simp only [List.map_cons]
    rw [h f (List.mem_cons_self f fs), if_neg (by simp)]
    rw [ih (fun g hg => h g (List.mem_cons_of_mem f hg))]

/-- Destructor for a successful run of the embedded constructor. -/
theorem mk_ok_elim {eps : ℚ} {faces : List ConvexPolygen} {p : ConvexPolyhedron}
    (h : mkConvexPolyhedron eps faces = .ok p) :
    (pointsOf faces).card ≠ 0 ∧
    checkNormal eps (centerOf (pointsOf faces))
      (correctFaces eps (centerOf (pointsOf faces)) faces) = true ∧
    eulerHolds (pointsOf faces) (segsOf faces)
      (correctFaces eps (centerOf (pointsOf faces)) faces) = true ∧
    p = ⟨correctFaces eps (centerOf (pointsOf faces)) faces, pointsOf faces, segsOf faces,
      faces.map (fun f => Pyramid.mk f (centerOf (pointsOf faces))),
      centerOf (pointsOf faces)⟩ := by
  unfold mkConvexPolyhedron at h
  by_cases h0 : (pointsOf faces).card = 0
  · simp [h0] at h
  · simp only [h0, if_false, if_neg] at h
    by_cases h1 : checkNormal eps (centerOf (pointsOf faces))
        (correctFaces eps (centerOf (pointsOf faces)) faces) = true
    · simp only [h1, Bool.not_true, Bool.false_eq_true, if_false] at h
      by_cases h2 : eulerHolds (pointsOf faces) (segsOf faces)
          (correctFaces eps (centerOf (pointsOf faces)) faces) = true
      · simp only [h2, Bool.not_true, Bool.false_eq_true, if_false, Except.ok.injEq] at h
        exact ⟨h0, h1, h2, h.symm⟩
      · simp only [Bool.not_eq_true] at h2
        simp [h2] at h
    · simp only [Bool.not_eq_true] at h1
      simp [h1] at h

/-- Constructor form of a successful run of the embedded constructor. -/
theorem mk_ok_intro {eps : ℚ} {faces : List ConvexPolygen}
    (h0 : (pointsOf faces).card ≠ 0)
    (h1 : checkNormal eps (centerOf (pointsOf faces))
      (correctFaces eps (centerOf (pointsOf faces)) faces) = true)
    (h2 : eulerHolds (pointsOf faces) (segsOf faces)
      (correctFaces eps (centerOf (pointsOf faces)) faces) = true) :
    mkConvexPolyhedron eps faces =
      .ok ⟨correctFaces eps (centerOf (pointsOf faces)) faces, pointsOf faces, segsOf faces,
        faces.map (fun f => Pyramid.mk f (centerOf (pointsOf faces))),
        centerOf (pointsOf faces)⟩ := by
  unfold mkConvexPolyhedron
  simp [h0, h1, h2]

theorem ptLe_move (v : Vector) (a b : Point) : ptLe (a.move v) (b.move v) = ptLe a b := by
  simp only [ptLe, Point.move, decide_eq_decide]
  constructor
  · rintro (h | ⟨h1, h2 | ⟨h3, h4⟩⟩)
    · exact Or.inl (by linarith)
    · exact Or.inr ⟨by linarith, Or.inl (by linarith)⟩
    · exact Or.inr ⟨by linarith, Or.inr ⟨by linarith, by linarith⟩⟩
  · rintro (h | ⟨h1, h2 | ⟨h3, h4⟩⟩)
    · exact Or.inl (by linarith)
    · exact Or.inr ⟨by linarith, Or.inl (by linarith)⟩
    · exact Or.inr ⟨by linarith, Or.inr ⟨by linarith, by linarith⟩⟩

theorem normSeg_pairMove (v : Vector) (s : Point × Point) :
    normSeg (pairMove v s) = pairMove v (normSeg s) := by
  unfold normSeg pairMove
  rw [ptLe_move]
  by_cases h : ptLe s.1 s.2 = true
  · simp [h]
  · simp only [Bool.not_eq_true] at h
    simp [h]

theorem move_injective (v : Vector) : Function.Injective (fun p : Point => p.move v) := by
  intro a b h
  simp only [Point.move, Point.mk.injEq] at h
  ext <;> linarith [h.1, h.2.1, h.2.2]

theorem pairMove_injective (v : Vector) : Function.Injective (pairMove v) := by
  intro a b h
  simp only [pairMove, Prod.mk.injEq] at h
  obtain ⟨h1, h2⟩ := h
  exact Prod.ext (move_injective v h1) (move_injective v h2)

theorem cycPairs_map (g : Point → Point) (l : List Point) :
    cycPairs (l.map g) = (cycPairs l).map (Prod.map g g) := by
  cases l with
  | nil => rfl
  | cons x xs =>
    show (g x :: xs.map g).zip ((xs.map g) ++ [g x]) =
      ((x :: xs).zip (xs ++ [x])).map (Prod.map g g)
    rw [show (xs.map g) ++ [g x] = (xs ++ [x]).map g by simp,
      show (g x :: xs.map g) = (x :: xs).map g by simp]
    exact List.zip_map g g (x :: xs) (xs ++ [x])

theorem segments_movePolygen (v : Vector) (f : ConvexPolygen) :
    (movePolygen v f).segments = f.segments.map (pairMove v) := by
  unfold ConvexPolygen.segments movePolygen
  simp only [cycPairs_map, List.map_map]
  refine List.map_congr_left fun s _ => ?_
  show normSeg (pairMove v s) = pairMove v (normSeg s)
  exact normSeg_pairMove v s

theorem list_toFinset_map {α β : Type} [DecidableEq α] [DecidableEq β]
    (g : α → β) (l : List α) : (l.map g).toFinset = l.toFinset.image g := by
  ext x
  simp

theorem pointsOf_map_move (v : Vector) (faces : List ConvexPolygen) :
    pointsOf (faces.map (movePolygen v)) = (pointsOf faces).image (fun p => p.move v) := by
  unfold pointsOf
  rw [List.flatMap_map]
  have : (fun f => (movePolygen v f).points) =
      fun f : ConvexPolygen => f.points.map (fun p => p.move v) := rfl
  rw [this, ← List.map_flatMap, list_toFinset_map]

theorem segsOf_map_move (v : Vector) (faces : List ConvexPolygen) :
    segsOf (faces.map (movePolygen v)) = (segsOf faces).image (pairMove v) := by
  unfold segsOf
  rw [List.flatMap_map]
  have : (fun f => (movePolygen v f).segments) =
      fun f : ConvexPolygen => f.segments.map (pairMove v) := by
    funext f
    exact segments_movePolygen v f
  rw [this, ← List.map_flatMap, list_toFinset_map]

theorem centerOf_image_move {s : Finset Point} (v : Vector) (h : s.card ≠ 0) :
    centerOf (s.image (fun p => p.move v)) = (centerOf s).move v := by
  have hinj := move_injective v
  have hcard : (s.image (fun p => p.move v)).card = s.card :=
    Finset.card_image_of_injective s hinj
  have hc : ((s.card : ℚ)) ≠ 0 := by
    exact_mod_cast h
  unfold centerOf
  rw [hcard]
  have hx : (s.image (fun p => p.move v)).sum (fun p => p.x) =
      s.sum (fun p => p.x) + s.card * v.x := by
    rw [Finset.sum_image (fun a _ b _ hab => hinj hab)]
    simp only [Point.move]
    rw [Finset.sum_add_distrib, Finset.sum_const, nsmul_eq_mul]
  have hy : (s.image (fun p => p.move v)).sum (fun p => p.y) =
      s.sum (fun p => p.y) + s.card * v.y := by
    rw [Finset.sum_image (fun a _ b _ hab => hinj hab)]
    simp only [Point.move]
    rw [Finset.sum_add_distrib, Finset.sum_const, nsmul_eq_mul]
  have hz : (s.image (fun p => p.move v)).sum (fun p => p.z) =
      s.sum (fun p => p.z) + s.card * v.z := by
    rw [Finset.sum_image (fun a _ b _ hab => hinj hab)]
    simp only [Point.move]
    rw [Finset.sum_add_distrib, Finset.sum_const, nsmul_eq_mul]
  rw [hx, hy, hz]
  simp only [Point.move, Point.mk.injEq]
  refine ⟨?_, ?_, ?_⟩ <;> field_simp <;> ring

theorem flipCond_move (eps : ℚ) (v : Vector) (c : Point) (f : ConvexPolygen) :
    flipCond eps (c.move v) (movePolygen v f) = flipCond eps c f := by
  unfold flipCond movePolygen
  have : Vector.fromPoints (c.move v) (f.plane.p.move v) = Vector.fromPoints c f.plane.p := by
    simp only [Vector.fromPoints, Point.move, Vector.mk.injEq]
    refine ⟨by ring, by ring, by ring⟩
  simp only [this]

theorem checkNormal_move (eps : ℚ) (v : Vector) (c : Point) (faces : List ConvexPolygen) :
    checkNormal eps (c.move v) (faces.map (movePolygen v)) = checkNormal eps c faces := by
  unfold checkNormal
  rw [List.all_map]
  congr 1
  funext f
  simp only [Function.comp_apply, flipCond_move]

theorem moveLoop_no_flip (eps : ℚ) (c : Point) (l : List ConvexPolygen)
    (h : ∀ f ∈ l, flipCond eps c f = false) :
    ∀ acc, moveLoop eps c l acc = (acc ++ l.map (fun f => Pyramid.mk f c), false) := by
  induction l with
  | nil => intro acc; simp [moveLoop]
  | cons f fs ih =>
    intro acc
    unfold moveLoop
    rw [h f (List.mem_cons_self f fs)]
    simp only [Bool.false_eq_true, if_false]
    rw [ih (fun g hg => h g (List.mem_cons_of_mem f hg)) (acc ++ [Pyramid.mk f c])]
    simp

/-- On any successfully constructed polyhedron, moving by a vector takes
every branch of move on its success path: self is mutated into the
translated state and an equal fresh polyhedron is returned. -/
theorem movePoly_of_mk {eps : ℚ} {faces : List ConvexPolygen} {p : ConvexPolyhedron}
    (h : mkConvexPolyhedron eps faces = .ok p) (v : Vector) :
    movePoly eps p (.vec v) = (translatedState v p, .ok (translatedState v p)) := by
  obtain ⟨h0, h1, h2, hp⟩ := mk_ok_elim h
  subst hp
  set c0 := centerOf (pointsOf faces) with hc0
  set F := correctFaces eps c0 faces with hF
  set moved := F.map (movePolygen v) with hmoved
  have hPF : pointsOf F = pointsOf faces := pointsOf_correctFaces eps c0 faces
  have hSF : segsOf F = segsOf faces := segsOf_correctFaces eps c0 faces
  have hPts : pointsOf moved = (pointsOf faces).image (fun q => q.move v) := by
    rw [hmoved, pointsOf_map_move, hPF]
  have hCard : (pointsOf moved).card = (pointsOf faces).card := by
    rw [hPts, Finset.card_image_of_injective _ (move_injective v)]
  have hCard0 : ¬((pointsOf moved).card = 0) := by rw [hCard]; exact h0
  have hC : centerOf (pointsOf moved) = c0.move v := by
    rw [hPts, centerOf_image_move v h0]
  have hCN : checkNormal eps (centerOf (pointsOf moved)) moved = true := by
    rw [hC, hmoved, checkNormal_move]
    exact h1
  have hFlip : ∀ f ∈ moved, flipCond eps (centerOf (pointsOf moved)) f = false := by
    simp only [checkNormal, List.all_eq_true, Bool.not_eq_eq_eq_not, Bool.not_true] at hCN
    exact hCN
  have hSegs : segsOf moved = (segsOf faces).image (pairMove v) := by
    rw [hmoved, segsOf_map_move, hSF]
  have hSegCard : (segsOf moved).card = (segsOf faces).card := by
    rw [hSegs, Finset.card_image_of_injective _ (pairMove_injective v)]
  have hLen : moved.length = F.length := by rw [hmoved, List.length_map]
  have hEuler : eulerHolds (pointsOf moved) (segsOf moved) moved = true := by
    simp only [eulerHolds, decide_eq_true_eq] at h2 ⊢
    rw [hCard, hSegCard, hLen]
    exact h2
  have hCorrect : correctFaces eps (centerOf (pointsOf moved)) moved = moved :=
    correctFaces_of_checkNormal hCN
  have hMk : mkConvexPolyhedron eps moved =
      .ok ⟨moved, pointsOf moved, segsOf moved,
        moved.map (fun f => Pyramid.mk f (centerOf (pointsOf moved))),
        centerOf (pointsOf moved)⟩ := by
    have := @mk_ok_intro eps moved
      (by exact hCard0) (by rw [hCorrect]; exact hCN) (by rw [hCorrect]; exact hEuler)
    rw [this, hCorrect]
  have hT : translatedState v
      (⟨F, pointsOf faces, segsOf faces,
        faces.map (fun f => Pyramid.mk f c0), c0⟩ : ConvexPolyhedron) =
      ⟨moved, pointsOf moved, segsOf moved,
        moved.map (fun f => Pyramid.mk f (centerOf (pointsOf moved))),
        centerOf (pointsOf moved)⟩ := rfl
  simp only [movePoly]
  rw [hT]
  simp only [if_neg hCard0]
  rw [moveLoop_no_flip eps (centerOf (pointsOf (F.map (movePolygen v))))
    (F.map (movePolygen v)) (by exact hFlip) []]
  simp only [List.nil_append]
  rw [show (checkNormal eps (centerOf (pointsOf (F.map (movePolygen v))))
    (F.map (movePolygen v))) = true from hCN]
  simp only [Bool.not_true, Bool.false_eq_true, if_false]
  rw [show (eulerHolds (pointsOf (F.map (movePolygen v)))
    (segsOf (F.map (movePolygen v))) (F.map (movePolygen v))) = true from hEuler]
  simp only [Bool.not_true, Bool.false_eq_true, if_false]
  rw [show mkConvexPolyhedron eps (F.map (movePolygen v)) =
    .ok ⟨F.map (movePolygen v), pointsOf (F.map (movePolygen v)),
      segsOf (F.map (movePolygen v)),
      (F.map (movePolygen v)).map (fun f => Pyramid.mk f
        (centerOf (pointsOf (F.map (movePolygen v))))),
      centerOf (pointsOf (F.map (movePolygen v)))⟩ from hMk]

theorem lengthIsZero_eq {v : Vector} (h : v.lengthIsZero = true) : v = ⟨0, 0, 0⟩ := by
  simp only [Vector.lengthIsZero, decide_eq_true_eq] at h
  have hx : v.x * v.x ≤ 0 := by nlinarith [mul_self_nonneg v.y, mul_self_nonneg v.z]
  have hy : v.y * v.y ≤ 0 := by nlinarith [mul_self_nonneg v.x, mul_self_nonneg v.z]
  have hz : v.z * v.z ≤ 0 := by nlinarith [mul_self_nonneg v.x, mul_self_nonneg v.y]
  have hx0 : v.x = 0 := mul_self_eq_zero.mp (le_antisymm hx (mul_self_nonneg v.x))
  have hy0 : v.y = 0 := mul_self_eq_zero.mp (le_antisymm hy (mul_self_nonneg v.y))
  have hz0 : v.z = 0 := mul_self_eq_zero.mp (le_antisymm hz (mul_self_nonneg v.z))
  ext <;> assumption

theorem parallelB_zero_right (v : Vector) : v.parallelB ⟨0, 0, 0⟩ = true := by
  simp [Vector.parallelB, Vector.cross]

theorem faceWf_negPolygen {f : ConvexPolygen} (h : faceWf f) : faceWf (negPolygen f) := by
  unfold faceWf at h ⊢
  simp only [negPolygen, dot_neg_right]
  simp [h]

theorem faceWf_correctFaces {eps : ℚ} {c : Point} {faces : List ConvexPolygen}
    (hwf : ∀ f ∈ faces, faceWf f) :
    ∀ g ∈ correctFaces eps c faces, faceWf g := by
  intro g hg
  simp only [correctFaces, List.mem_map] at hg
  obtain ⟨f, hf, rfl⟩ := hg
  by_cases hflip : flipCond eps c f = true
  · simp only [hflip, if_true]
    exact faceWf_negPolygen (hwf f hf)
  · simp only [Bool.not_eq_true] at hflip
    simp only [hflip, Bool.false_eq_true, if_false]
    exact hwf f hf

/-- C1: a successfully constructed polyhedron satisfies
|vertices| - |edges| + |faces| = 2, and a supplied face collection whose
derived counts violate this equation never yields a polyhedron: the
constructor ends in an error instead. -/
theorem euler_invariant (eps : ℚ) (faces : List ConvexPolygen) :
    (∀ p, mkConvexPolyhedron eps faces = .ok p →
      (p.point_set.card : ℤ) - (p.segment_set.card : ℤ) +
        (p.convex_polygens.length : ℤ) = 2) ∧
    ((((pointsOf faces).card : ℤ) - ((segsOf faces).card : ℤ) +
        (faces.length : ℤ) ≠ 2) →
      ∀ p, mkConvexPolyhedron eps faces ≠ .ok p) := by
  constructor
  · intro p h
    obtain ⟨h0, h1, h2, hp⟩ := mk_ok_elim h
    subst hp
    simp only [eulerHolds, decide_eq_true_eq, correctFaces_length] at h2
    simpa [correctFaces_length] using h2
  · intro hne p h
    obtain ⟨h0, h1, h2, hp⟩ := mk_ok_elim h
    simp only [eulerHolds, decide_eq_true_eq, correctFaces_length] at h2
    exact hne h2

/-- C1 witness: the cube construction succeeds with Euler count 2, and the
cube with a face removed (counts 8 - 12 + 5 = 1) is rejected. -/
theorem euler_invariant_w :
    ((cubeP.point_set.card : ℤ) - (cubeP.segment_set.card : ℤ) +
      (cubeP.convex_polygens.length : ℤ) = 2) ∧
    mkConvexPolyhedron epsW (cubeFaces.take 5) ≠ .ok dfltPoly :=
  ⟨(euler_invariant epsW cubeFaces).1 cubeP (by with_unfolding_all rfl),
   (euler_invariant epsW (cubeFaces.take 5)).2 (by with_unfolding_all decide) dfltPoly⟩

/-- C3: the Point containment query answers true exactly when every face
satisfies Vector(face.center_point, pt) * face.plane.n ≤ eps, so points
within the tolerance of the boundary count as contained. -/
theorem contains_point_iff (eps : ℚ) (p : ConvexPolyhedron) (pt : Point) :
    polyhedronContains eps p (.point pt) = .ok true ↔
      ∀ f ∈ p.convex_polygens,
        (Vector.fromPoints f.center_point pt).dot f.plane.n ≤ eps := by
  simp [polyhedronContains, containsPoint, List.all_eq_true, not_lt]

/-- C3 witness: the origin is inside the cube. -/
theorem contains_point_iff_w :
    polyhedronContains epsW cubeP (.point ⟨0, 0, 0⟩) = .ok true :=
  (contains_point_iff epsW cubeP ⟨0, 0, 0⟩).mpr (by with_unfolding_all decide)

/-- C4: after the correction step every face passes the orientation test,
hence for a nonnegative tolerance the Check-Normal-Fails branch of the
constructor is unreachable, and every successfully constructed polyhedron
satisfies the orientation invariant. -/
theorem normal_correction_infallible (eps : ℚ) (c : Point) (faces : List ConvexPolygen)
    (heps : 0 ≤ eps) :
    checkNormal eps c (correctFaces eps c faces) = true ∧
    (∀ fs2, mkConvexPolyhedron eps fs2 ≠ .error .checkNormalFails) ∧
    (∀ fs2 p, mkConvexPolyhedron eps fs2 = .ok p →
      checkNormal eps p.center_point p.convex_polygens = true) := by
  refine ⟨checkNormal_correctFaces eps c faces heps, ?_, ?_⟩
  · intro fs2 hcontra
    unfold mkConvexPolyhedron at hcontra
    by_cases h0 : (pointsOf fs2).card = 0
    · simp [h0] at hcontra
    · simp only [h0, if_false, if_neg] at hcontra
      rw [checkNormal_correctFaces eps _ fs2 heps] at hcontra
      simp only [Bool.not_true, Bool.false_eq_true, if_false] at hcontra
      split at hcontra <;> simp at hcontra
  · intro fs2 p h
    obtain ⟨h0, h1, h2, hp⟩ := mk_ok_elim h
    subst hp
    exact h1

/-- C4 witness: at a concrete nonnegative tolerance, correcting the cube
faces with one inward normal makes the orientation check pass, and that
input does not raise the Check-Normal error. -/
theorem normal_correction_infallible_w :
    checkNormal epsW ⟨0, 0, 0⟩ (correctFaces epsW ⟨0, 0, 0⟩ badCubeFaces) = true ∧
    mkConvexPolyhedron epsW badCubeFaces ≠ .error .checkNormalFails :=
  ⟨(normal_correction_infallible epsW ⟨0, 0, 0⟩ badCubeFaces
      (by with_unfolding_all decide)).1,
   (normal_correction_infallible epsW ⟨0, 0, 0⟩ badCubeFaces
      (by with_unfolding_all decide)).2.1 badCubeFaces⟩

/-- C6: the Parallelepiped factory rejects any call in which some edge
vector has zero length or some pair of edge vectors is parallel, with one
of its two invalid-argument errors, before any construction is
attempted.  The unreachable length comparisons of the source for the
second and third vector are compensated by the parallelism test, since
the zero vector is parallel to every vector. -/
theorem parallelepiped_guard (eps : ℚ) (base : Point) (v1 v2 v3 : Vector)
    (h : v1.lengthIsZero = true ∨ v2.lengthIsZero = true ∨ v3.lengthIsZero = true ∨
      v1.parallelB v2 = true ∨ v1.parallelB v3 = true ∨ v2.parallelB v3 = true) :
    Parallelepiped eps base v1 v2 v3 = .error .zeroLengthVectors ∨
    Parallelepiped eps base v1 v2 v3 = .error .parallelVectors := by
  by_cases hz : v1.lengthIsZero = true
  · left
    simp [Parallelepiped, hz]
  · right
    have hpar : v1.parallelB v2 = true ∨ v1.parallelB v3 = true ∨ v2.parallelB v3 = true := by
      rcases h with h | h | h | h | h | h
      · exact absurd h hz
      · rw [lengthIsZero_eq h]
        exact Or.inl (parallelB_zero_right v1)
      · rw [lengthIsZero_eq h]
        exact Or.inr (Or.inl (parallelB_zero_right v1))
      · exact Or.inl h
      · exact Or.inr (Or.inl h)
      · exact Or.inr (Or.inr h)
    simp only [Bool.not_eq_true] at hz
    rcases hpar with h | h | h <;> simp [Parallelepiped, hz, h]

/-- C6 witness: two equal (hence parallel) edge vectors are rejected. -/
theorem parallelepiped_guard_w :
    Parallelepiped epsW ⟨0, 0, 0⟩ ⟨1, 0, 0⟩ ⟨1, 0, 0⟩ ⟨0, 1, 0⟩ =
      .error .zeroLengthVectors ∨
    Parallelepiped epsW ⟨0, 0, 0⟩ ⟨1, 0, 0⟩ ⟨1, 0, 0⟩ ⟨0, 1, 0⟩ =
      .error .parallelVectors :=
  parallelepiped_guard epsW ⟨0, 0, 0⟩ ⟨1, 0, 0⟩ ⟨1, 0, 0⟩ ⟨0, 1, 0⟩
    (Or.inr (Or.inr (Or.inr (Or.inl (by with_unfolding_all decide)))))

/-- C9: equality dispatch of __eq__: any argument that is not a
ConvexPolyhedron compares unequal without an error, and between two
polyhedra the answer is exactly equality of the derived hash values. -/
theorem eq_by_hash (combine : ℚ → ℚ → Int) (roundSig : ℚ → ℚ)
    (hashPolygen : ConvexPolygen → ℚ) (hashPoint : Point → ℚ)
    (self : ConvexPolyhedron) (other : PyObj) :
    ((∀ q, other ≠ PyObj.polyhedron q) →
      polyhedronEq (polyhedronHash combine roundSig hashPolygen hashPoint) self other =
        false) ∧
    (∀ q, polyhedronEq (polyhedronHash combine roundSig hashPolygen hashPoint) self
        (.polyhedron q) =
      (polyhedronHash combine roundSig hashPolygen hashPoint self ==
        polyhedronHash combine roundSig hashPolygen hashPoint q)) := by
  constructor
  · intro hne
    cases other with
    | polyhedron q => exact absurd rfl (hne q)
    | vec v => rfl
    | point q => rfl
    | segment s e => rfl
    | polygen f => rfl
    | noneObj => rfl
  · intro q
    rfl

/-- C9 witness: comparing a polyhedron against None yields false under a
concrete hash instantiation. -/
theorem eq_by_hash_w :
    polyhedronEq (polyhedronHash (fun a b => (a + b).num) id
      (fun f => (f.points.length : ℚ)) (fun pt => pt.x)) dfltPoly .noneObj = false :=
  (eq_by_hash (fun a b => (a + b).num) id (fun f => (f.points.length : ℚ))
    (fun pt => pt.x) dfltPoly .noneObj).1 (fun _ hq => PyObj.noConfusion hq)

/-- C10: moving by anything that is not a Vector raises
NotImplementedError and leaves the polyhedron state untouched. -/
theorem move_type_guard (eps : ℚ) (p : ConvexPolyhedron) (arg : PyObj)
    (h : ∀ v, arg ≠ PyObj.vec v) :
    movePoly eps p arg = (p, .error .badMoveArgument) := by
  cases arg with
  | vec v => exact absurd rfl (h v)
  | point q => rfl
  | segment s e => rfl
  | polygen f => rfl
  | polyhedron q => rfl
  | noneObj => rfl

/-- C10 witness: moving the cube by None fails and keeps the state. -/
theorem move_type_guard_w :
    movePoly epsW cubeP .noneObj = (cubeP, .error .badMoveArgument) :=
  move_type_guard epsW cubeP .noneObj (fun _ hv => PyObj.noConfusion hv)

/-- C2 counterexample: moving the cube by (1,0,0) changes the observable
state of the original object itself: the vertex (-1,-1,-1) is in its point
set before the call and gone from it afterwards, so the state after the
call differs from the state before.  This refutes the claim that move
leaves the original object unchanged. -/
theorem move_not_atomic_cex :
    (⟨-1, -1, -1⟩ : Point) ∈ cubeP.point_set ∧
    (⟨-1, -1, -1⟩ : Point) ∉ (movePoly epsW cubeP (.vec ⟨1, 0, 0⟩)).1.point_set ∧
    (movePoly epsW cubeP (.vec ⟨1, 0, 0⟩)).1 ≠ cubeP := by
  have h1 : (⟨-1, -1, -1⟩ : Point) ∈ cubeP.point_set := by with_unfolding_all decide
  have h2 : (⟨-1, -1, -1⟩ : Point) ∉ (movePoly epsW cubeP (.vec ⟨1, 0, 0⟩)).1.point_set := by
    with_unfolding_all decide
  refine ⟨h1, h2, fun hEq => ?_⟩
  rw [hEq] at h2
  exact h2 h1

/-- C2 amended: on a successfully constructed polyhedron, move with a
vector succeeds and returns a fresh polyhedron whose faces are the
original faces translated by the vector, with all derived state
recomputed; but it is not atomic, because the original object itself is
mutated into that same translated state as a side effect. -/
theorem move_translates_and_mutates (eps : ℚ) (faces : List ConvexPolygen)
    (p : ConvexPolyhedron) (v : Vector) (h : mkConvexPolyhedron eps faces = .ok p) :
    movePoly eps p (.vec v) = (translatedState v p, .ok (translatedState v p)) ∧
    (translatedState v p).convex_polygens = p.convex_polygens.map (movePolygen v) ∧
    (translatedState v p).point_set =
      pointsOf (p.convex_polygens.map (movePolygen v)) ∧
    (translatedState v p).segment_set =
      segsOf (p.convex_polygens.map (movePolygen v)) ∧
    (translatedState v p).center_point =
      centerOf (pointsOf (p.convex_polygens.map (movePolygen v))) :=
  ⟨movePoly_of_mk h v, rfl, rfl, rfl, rfl⟩

/-- C2 amended witness: the concrete cube moved by (2,3,4). -/
theorem move_translates_and_mutates_w :
    movePoly epsW cubeP (.vec ⟨2, 3, 4⟩) =
      (translatedState ⟨2, 3, 4⟩ cubeP, .ok (translatedState ⟨2, 3, 4⟩ cubeP)) ∧
    (translatedState ⟨2, 3, 4⟩ cubeP).convex_polygens =
      cubeP.convex_polygens.map (movePolygen ⟨2, 3, 4⟩) ∧
    (translatedState ⟨2, 3, 4⟩ cubeP).point_set =
      pointsOf (cubeP.convex_polygens.map (movePolygen ⟨2, 3, 4⟩)) ∧
    (translatedState ⟨2, 3, 4⟩ cubeP).segment_set =
      segsOf (cubeP.convex_polygens.map (movePolygen ⟨2, 3, 4⟩)) ∧
    (translatedState ⟨2, 3, 4⟩ cubeP).center_point =
      centerOf (pointsOf (cubeP.convex_polygens.map (movePolygen ⟨2, 3, 4⟩))) :=
  move_translates_and_mutates epsW cubeFaces cubeP ⟨2, 3, 4⟩ (by with_unfolding_all rfl)

/-- C5 counterexample: constructing from the cube faces with one inward
normal succeeds, the correction flips that face, yet the first pyramid is
based on the original inward face, not on the flipped face stored in
convex_polygens.  This refutes the claim that each pyramid has the stored
(corrected) face as its base. -/
theorem pyramid_base_not_corrected_cex :
    isOkB (mkConvexPolyhedron epsW badCubeFaces) = true ∧
    ((okOr (mkConvexPolyhedron epsW badCubeFaces) dfltPoly).pyramid_set.headD
        dfltPyr).base ≠
      (okOr (mkConvexPolyhedron epsW badCubeFaces) dfltPoly).convex_polygens.headD
        dfltFace ∧
    ((okOr (mkConvexPolyhedron epsW badCubeFaces) dfltPoly).pyramid_set.headD
        dfltPyr).base = faceAIn := by
  refine ⟨?_, ?_, ?_⟩
  · with_unfolding_all decide
  · with_unfolding_all decide
  · with_unfolding_all decide

/-- C5 amended: a successfully constructed polyhedron has exactly one
pyramid per face, each with the polyhedron centroid as apex, but each
pyramid is based on the input face as supplied before orientation
correction. -/
theorem pyramids_one_per_input_face (eps : ℚ) (faces : List ConvexPolygen)
    (p : ConvexPolyhedron) (h : mkConvexPolyhedron eps faces = .ok p) :
    p.pyramid_set = faces.map (fun f => Pyramid.mk f p.center_point) ∧
    p.pyramid_set.length = p.convex_polygens.length ∧
    ∀ pyr ∈ p.pyramid_set, pyr.apex = p.center_point := by
  obtain ⟨h0, h1, h2, hp⟩ := mk_ok_elim h
  subst hp
  refine ⟨rfl, by simp [correctFaces_length], ?_⟩
  intro pyr hpyr
  simp only [List.mem_map] at hpyr
  obtain ⟨f, hf, rfl⟩ := hpyr
  rfl

/-- C5 amended witness: the cube construction. -/
theorem pyramids_one_per_input_face_w :
    cubeP.pyramid_set = cubeFaces.map (fun f => Pyramid.mk f cubeP.center_point) ∧
    cubeP.pyramid_set.length = cubeP.convex_polygens.length ∧
    ∀ pyr ∈ cubeP.pyramid_set, pyr.apex = cubeP.center_point :=
  pyramids_one_per_input_face epsW cubeFaces cubeP (by with_unfolding_all rfl)

/-- C7: whenever the Euler check fails during construction, the failure
detail carries exactly the vertex, edge and face counts under the labels
V, E and F; and on a successfully constructed polyhedron the translation
path never fails its Euler check at all, since move succeeds outright. -/
theorem euler_failure_counts (eps : ℚ) (faces : List ConvexPolygen) :
    (∀ d, mkConvexPolyhedron eps faces = .error (.eulerCheckFails d) →
      d = [("V", (pointsOf faces).card), ("E", (segsOf faces).card),
        ("F", faces.length)]) ∧
    (∀ p v, mkConvexPolyhedron eps faces = .ok p →
      (movePoly eps p (.vec v)).2 = .ok (translatedState v p)) := by
  constructor
  · intro d hd
    unfold mkConvexPolyhedron at hd
    by_cases h0 : (pointsOf faces).card = 0
    · simp [h0] at hd
    · simp only [h0, if_false, if_neg] at hd
      by_cases h1 : checkNormal eps (centerOf (pointsOf faces))
          (correctFaces eps (centerOf (pointsOf faces)) faces) = true
      · simp only [h1, Bool.not_true, Bool.false_eq_true, if_false] at hd
        by_cases h2 : eulerHolds (pointsOf faces) (segsOf faces)
            (correctFaces eps (centerOf (pointsOf faces)) faces) = true
        · simp [h2] at hd
        · simp only [Bool.not_eq_true] at h2
          simp only [h2, Bool.not_false, if_true, Except.error.injEq,
            GeoError.eulerCheckFails.injEq] at hd
          rw [← hd]
          simp [eulerDetailInit, correctFaces_length]
      · simp only [Bool.not_eq_true] at h1
        simp [h1] at hd
  · intro p v h
    rw [movePoly_of_mk h v]

/-- C7 witness: the cube with one face removed fails construction with the
counts 8, 12, 5 labelled V, E, F, and moving the intact cube succeeds. -/
theorem euler_failure_counts_w :
    ([("V", 8), ("E", 12), ("F", 5)] : List (String × Nat)) =
      [("V", (pointsOf (cubeFaces.take 5)).card), ("E", (segsOf (cubeFaces.take 5)).card),
        ("F", (cubeFaces.take 5).length)] ∧
    (movePoly epsW cubeP (.vec ⟨1, 0, 0⟩)).2 = .ok (translatedState ⟨1, 0, 0⟩ cubeP) :=
  ⟨(euler_failure_counts epsW (cubeFaces.take 5)).1 [("V", 8), ("E", 12), ("F", 5)]
      (by with_unfolding_all rfl),
   (euler_failure_counts epsW cubeFaces).2 cubeP ⟨1, 0, 0⟩ (by with_unfolding_all rfl)⟩

/-- C8: the centroid of a successfully constructed polyhedron whose input
faces each carry their own centroid on their own plane passes the point
containment query. -/
theorem centroid_contained (eps : ℚ) (faces : List ConvexPolygen) (p : ConvexPolyhedron)
    (hwf : ∀ f ∈ faces, faceWf f) (h : mkConvexPolyhedron eps faces = .ok p) :
    polyhedronContains eps p (.point p.center_point) = .ok true := by
  obtain ⟨h0, h1, h2, hp⟩ := mk_ok_elim h
  subst hp
  have hcp : containsPoint eps
      ⟨correctFaces eps (centerOf (pointsOf faces)) faces, pointsOf faces, segsOf faces,
        faces.map (fun f => Pyramid.mk f (centerOf (pointsOf faces))),
        centerOf (pointsOf faces)⟩
      (centerOf (pointsOf faces)) = true := by
    simp only [containsPoint, List.all_eq_true]
    intro g hg
    have hwfg : faceWf g := faceWf_correctFaces hwf g hg
    have hflip : flipCond eps (centerOf (pointsOf faces)) g = false := by
      simp only [checkNormal, List.all_eq_true, Bool.not_eq_eq_eq_not, Bool.not_true] at h1
      exact h1 g hg
    simp only [flipCond, decide_eq_false_iff_not, not_lt] at hflip
    simp only [Bool.not_eq_true', decide_eq_false_iff_not, not_lt]
    have hchain := dot_fromPoints_chain g.center_point g.plane.p
      (centerOf (pointsOf faces)) g.plane.n
    have hrev := dot_fromPoints_rev g.center_point g.plane.p g.plane.n
    have hrev2 := dot_fromPoints_rev g.plane.p (centerOf (pointsOf faces)) g.plane.n
    unfold faceWf at hwfg
    linarith
  simp only [polyhedronContains, hcp]

/-- C8 witness: the centroid of the cube is contained in the cube. -/
theorem centroid_contained_w :
    polyhedronContains epsW cubeP (.point cubeP.center_point) = .ok true :=
  centroid_contained epsW cubeFaces cubeP (by with_unfolding_all decide)
    (by with_unfolding_all rfl)

end Geometry3D
